import Mathlib

/-!
Verification of the recurrence & scheduling engine of the Reminders app
(src/App.tsx and src/utils/notifications.ts).

The JavaScript `Date` values used by the engine are modelled at minute
resolution: every instant the engine schedules has its seconds and
milliseconds zeroed by `setHours(h, m, 0, 0)`, so comparisons against an
arbitrary "now" are decided at whole-minute granularity exactly as in the
source.  A `Date` is represented by its civil fields in local time, kept
normalized (month 0..11, day 1..days-in-month) exactly as the JS getters
report them; the JS setters' day/month overflow rollover is modelled by
`normDay` below.
-/

namespace Reminders

/-- Gregorian leap-year test, as used by JS `Date` local-calendar arithmetic. -/
def isLeap (y : Nat) : Bool :=
  (y % 4 == 0 && y % 100 != 0) || y % 400 == 0

/-- Number of days in year `y`. -/
def yearLength (y : Nat) : Nat :=
  if isLeap y then 366 else 365

/-- Days in month `m` of year `y`, with JS month numbering 0 (January) .. 11
    (December).  Months ≥ 12 only show up transiently inside normalization. -/
def daysInMonth (y m : Nat) : Nat :=
  if m = 1 then (if isLeap y then 29 else 28)
  else if m = 3 ∨ m = 5 ∨ m = 8 ∨ m = 10 then 30
  else 31

/-- Days from January 1st of year `y` to the first day of month `m`. -/
def monthOffset (y : Nat) : Nat → Nat
  | 0 => 0
  | m + 1 => monthOffset y m + daysInMonth y m

/-- Days from 1970-01-01 to January 1st of year `1970 + n`. -/
def daysToYear : Nat → Nat
  | 0 => 0
  | n + 1 => daysToYear n + yearLength (1970 + n)

/-- A JS `Date` value at minute resolution, fields as the JS getters report
    them: `month` is 0-based, `day` is 1-based. -/
structure DateTime where
  year : Nat
  month : Nat
  day : Nat
  hour : Nat
  minute : Nat
deriving DecidableEq, Repr

/-- Raw day count from the epoch for an arbitrary (possibly unnormalized)
    civil triple; only meaningful for `y ≥ 1970`, `d ≥ 1`. -/
def rawDays (y m d : Nat) : Nat :=
  daysToYear (y - 1970) + monthOffset y m + (d - 1)

/-- Days from 1970-01-01 (the JS epoch date) to `t`'s calendar date. -/
def epochDays (t : DateTime) : Nat :=
  rawDays t.year t.month t.day

/-- Minutes from the epoch to `t`; this is the model of `Date.getTime()`
    (which the source uses for every date comparison), divided by 60000. -/
def epochMinutes (t : DateTime) : Nat :=
  epochDays t * 1440 + t.hour * 60 + t.minute

/-- Model of JS `Date.getDay()`: 0 = Sunday .. 6 = Saturday.
    1970-01-01 was a Thursday, hence the offset 4. -/
def weekday (t : DateTime) : Nat :=
  (epochDays t + 4) % 7

/-- The datetimes this development reasons about: normalized civil fields in
    the JS epoch era (the app only ever manipulates present-day dates). -/
def Valid (t : DateTime) : Prop :=
  1970 ≤ t.year ∧ t.month ≤ 11 ∧ 1 ≤ t.day ∧ t.day ≤ daysInMonth t.year t.month

instance (t : DateTime) : Decidable (Valid t) :=
  inferInstanceAs (Decidable (_ ∧ _ ∧ _ ∧ _))

theorem daysInMonth_pos (y m : Nat) : 1 ≤ daysInMonth y m := by
  unfold daysInMonth
  split
  · split <;> omega
  · split <;> omega

theorem daysInMonth_le (y m : Nat) : daysInMonth y m ≤ 31 := by
  unfold daysInMonth
  split
  · split <;> omega
  · split <;> omega

theorem monthOffset_le (y m : Nat) : monthOffset y m ≤ 31 * m := by
  induction m with
  | zero => simp [monthOffset]
  | succ n ih =>
    have h := daysInMonth_le y n
    have e : monthOffset y (n + 1) = monthOffset y n + daysInMonth y n := rfl
    omega

set_option maxRecDepth 2000 in
theorem monthOffset_twelve (y : Nat) : monthOffset y 12 = yearLength y := by
  show 0 + daysInMonth y 0 + daysInMonth y 1 + daysInMonth y 2 + daysInMonth y 3 +
      daysInMonth y 4 + daysInMonth y 5 + daysInMonth y 6 + daysInMonth y 7 +
      daysInMonth y 8 + daysInMonth y 9 + daysInMonth y 10 + daysInMonth y 11 = yearLength y
  unfold daysInMonth yearLength
  cases h : isLeap y <;> simp [h]

theorem yearLength_ge (y : Nat) : 365 ≤ yearLength y := by
  unfold yearLength
  split <;> omega

theorem daysToYear_succ (y : Nat) (hy : 1970 ≤ y) :
    daysToYear (y + 1 - 1970) = daysToYear (y - 1970) + yearLength y := by
  have h : y + 1 - 1970 = (y - 1970) + 1 := by omega
  have h2 : 1970 + (y - 1970) = y := by omega
  rw [h]
  show daysToYear (y - 1970) + yearLength (1970 + (y - 1970)) = _
  rw [h2]

/-- The JS `Date` day-overflow normalization: a day count past the end of the
    month rolls into the following months (and years).  This is how the JS
    setters renormalize after `setDate`, `setMonth` and `setFullYear`. -/
def normDay (y m d : Nat) : Nat × Nat × Nat :=
  if _h : daysInMonth y m < d then
    if m = 11 then normDay (y + 1) 0 (d - daysInMonth y m)
    else normDay y (m + 1) (d - daysInMonth y m)
  else (y, m, d)
termination_by d
decreasing_by
  all_goals
    have h1 := daysInMonth_pos y m
    omega

theorem normDay_raw (y m d : Nat) (hy : 1970 ≤ y) (hd : 1 ≤ d) :
    rawDays (normDay y m d).1 (normDay y m d).2.1 (normDay y m d).2.2 = rawDays y m d := by
  rw [normDay]
  split
  · rename_i hlt
    split
    · rename_i hm
      subst hm
      have hdim : daysInMonth y 11 = 31 := rfl
      rw [hdim] at hlt ⊢
      have ih := normDay_raw (y + 1) 0 (d - 31) (by omega) (by omega)
      rw [ih]
      unfold rawDays
      have h12 : monthOffset y 11 + daysInMonth y 11 = yearLength y := monthOffset_twelve y
      rw [hdim] at h12
      have hty := daysToYear_succ y hy
      have hmo : monthOffset (y + 1) 0 = 0 := rfl
      omega
    · rename_i hm
      have hpos := daysInMonth_pos y m
      have ih := normDay_raw y (m + 1) (d - daysInMonth y m) hy (by omega)
      rw [ih]
      unfold rawDays
      have e : monthOffset y (m + 1) = monthOffset y m + daysInMonth y m := rfl
      omega
  · rfl
termination_by d
decreasing_by
  all_goals
    have h1 := daysInMonth_pos y m
    omega

theorem normDay_valid (y m d : Nat) (hy : 1970 ≤ y) (hm : m ≤ 11) (hd : 1 ≤ d) :
    1970 ≤ (normDay y m d).1 ∧ (normDay y m d).2.1 ≤ 11 ∧ 1 ≤ (normDay y m d).2.2 ∧
      (normDay y m d).2.2 ≤ daysInMonth (normDay y m d).1 (normDay y m d).2.1 := by
  rw [normDay]
  split
  · rename_i hlt
    split
    · rename_i hm11
      exact normDay_valid (y + 1) 0 (d - daysInMonth y m) (by omega) (by omega) (by omega)
    · rename_i hm11
      exact normDay_valid y (m + 1) (d - daysInMonth y m) hy (by omega) (by omega)
  · rename_i hle
    exact ⟨hy, hm, hd, (by omega : d ≤ daysInMonth y m)⟩
termination_by d
decreasing_by
  all_goals
    have h1 := daysInMonth_pos y m
    omega

/-- Model of `d.setDate(n)` for `n ≥ 1`: replace the day-of-month and roll any
    overflow past the month end forward, exactly as the JS setter does. -/
def jsSetDate (t : DateTime) (d : Nat) : DateTime :=
  let r := normDay t.year t.month d
  ⟨r.1, r.2.1, r.2.2, t.hour, t.minute⟩

/-- Model of `d.setMonth(m)` for `m ≥ 0`: months past December roll into later
    years, then a day-of-month too large for the target month rolls forward. -/
def jsSetMonth (t : DateTime) (m : Nat) : DateTime :=
  let r := normDay (t.year + m / 12) (m % 12) t.day
  ⟨r.1, r.2.1, r.2.2, t.hour, t.minute⟩

/-- Model of `d.setFullYear(y)`: replace the year, rolling Feb 29 forward when
    the target year is not a leap year. -/
def jsSetFullYear (t : DateTime) (y : Nat) : DateTime :=
  let r := normDay y t.month t.day
  ⟨r.1, r.2.1, r.2.2, t.hour, t.minute⟩

/-- Model of `d.setHours(h, min, 0, 0)` for in-range `h`, `min` (the source only
    ever passes another Date's getHours/getMinutes, or the constants 9, 0). -/
def setHoursMin (t : DateTime) (h min : Nat) : DateTime :=
  { t with hour := h, minute := min }

/-- Model of `a.toLocaleDateString() === b.toLocaleDateString()`: the rendered
    local date strings agree exactly when the calendar dates agree. -/
def sameCalDate (a b : DateTime) : Bool :=
  a.year == b.year && a.month == b.month && a.day == b.day

/-- `next.setDate(next.getDate() + 1)`: the daily advancement step. -/
def stepDay (t : DateTime) : DateTime := jsSetDate t (t.day + 1)

/-- `next.setMonth(next.getMonth() + 1)`: the monthly advancement step. -/
def stepMonth (t : DateTime) : DateTime := jsSetMonth t (t.month + 1)

/-- `next.setFullYear(next.getFullYear() + 1)`: the yearly advancement step. -/
def stepYear (t : DateTime) : DateTime := jsSetFullYear t (t.year + 1)

theorem valid_setHoursMin (t : DateTime) (h min : Nat) (hv : Valid t) :
    Valid (setHoursMin t h min) := hv

theorem valid_stepDay (t : DateTime) (hv : Valid t) : Valid (stepDay t) := by
  have h := normDay_valid t.year t.month (t.day + 1) hv.1 hv.2.1 (by omega)
  exact ⟨h.1, h.2.1, h.2.2.1, h.2.2.2⟩

theorem epochMinutes_stepDay (t : DateTime) (hv : Valid t) :
    epochMinutes (stepDay t) = epochMinutes t + 1440 := by
  have hr := normDay_raw t.year t.month (t.day + 1) hv.1 (by omega)
  have hd1 : 1 ≤ t.day := hv.2.2.1
  have e : epochDays (stepDay t) =
      rawDays (normDay t.year t.month (t.day + 1)).1
        (normDay t.year t.month (t.day + 1)).2.1
        (normDay t.year t.month (t.day + 1)).2.2 := rfl
  have e2 : rawDays t.year t.month (t.day + 1) = rawDays t.year t.month t.day + 1 := by
    unfold rawDays
    omega
  have e3 : epochDays (stepDay t) = epochDays t + 1 := by
    rw [e, hr, e2]
    rfl
  have e4 : (stepDay t).hour = t.hour := rfl
  have e5 : (stepDay t).minute = t.minute := rfl
  unfold epochMinutes
  rw [e3, e4, e5]
  ring

theorem valid_stepMonth (t : DateTime) (hv : Valid t) : Valid (stepMonth t) := by
  have hm12 : (t.month + 1) % 12 ≤ 11 := by omega
  have h := normDay_valid (t.year + (t.month + 1) / 12) ((t.month + 1) % 12) t.day
    (by have := hv.1; omega) hm12 hv.2.2.1
  exact ⟨h.1, h.2.1, h.2.2.1, h.2.2.2⟩

theorem epochMinutes_stepMonth (t : DateTime) (hv : Valid t) :
    epochMinutes (stepMonth t) = epochMinutes t + daysInMonth t.year t.month * 1440 := by
  obtain ⟨hy, hm, hd, hdle⟩ := hv
  have hr := normDay_raw (t.year + (t.month + 1) / 12) ((t.month + 1) % 12) t.day
    (by omega) hd
  have e : epochDays (stepMonth t) =
      rawDays (normDay (t.year + (t.month + 1) / 12) ((t.month + 1) % 12) t.day).1
        (normDay (t.year + (t.month + 1) / 12) ((t.month + 1) % 12) t.day).2.1
        (normDay (t.year + (t.month + 1) / 12) ((t.month + 1) % 12) t.day).2.2 := rfl
  have key : rawDays (t.year + (t.month + 1) / 12) ((t.month + 1) % 12) t.day =
      rawDays t.year t.month t.day + daysInMonth t.year t.month := by
    rcases Nat.lt_or_ge t.month 11 with hlt | hge
    · have hdiv : (t.month + 1) / 12 = 0 := Nat.div_eq_of_lt (by omega)
      have hmod : (t.month + 1) % 12 = t.month + 1 := Nat.mod_eq_of_lt (by omega)
      rw [hdiv, hmod]
      simp only [Nat.add_zero]
      unfold rawDays
      have emo : monthOffset t.year (t.month + 1) =
          monthOffset t.year t.month + daysInMonth t.year t.month := rfl
      omega
    · have hm11 : t.month = 11 := by omega
      rw [hm11]
      have hdiv : (11 + 1) / 12 = 1 := rfl
      have hmod : (11 + 1) % 12 = 0 := rfl
      rw [hdiv, hmod]
      unfold rawDays
      have h12 : monthOffset t.year 11 + daysInMonth t.year 11 = yearLength t.year :=
        monthOffset_twelve t.year
      have hty := daysToYear_succ t.year hy
      have hmo0 : monthOffset (t.year + 1) 0 = 0 := rfl
      have hd11 : daysInMonth t.year 11 = 31 := rfl
      omega
  have e3 : epochDays (stepMonth t) = epochDays t + daysInMonth t.year t.month := by
    rw [e, hr, key]
    rfl
  have e4 : (stepMonth t).hour = t.hour := rfl
  have e5 : (stepMonth t).minute = t.minute := rfl
  unfold epochMinutes
  rw [e3, e4, e5]
  ring

theorem valid_stepYear (t : DateTime) (hv : Valid t) : Valid (stepYear t) := by
  have h := normDay_valid (t.year + 1) t.month t.day (by have := hv.1; omega) hv.2.1 hv.2.2.1
  exact ⟨h.1, h.2.1, h.2.2.1, h.2.2.2⟩

theorem epochMinutes_stepYear (t : DateTime) (hv : Valid t) :
    epochMinutes t < epochMinutes (stepYear t) := by
  obtain ⟨hy, hm, hd, hdle⟩ := hv
  have hr := normDay_raw (t.year + 1) t.month t.day (by omega) hd
  have e : epochDays (stepYear t) =
      rawDays (normDay (t.year + 1) t.month t.day).1
        (normDay (t.year + 1) t.month t.day).2.1
        (normDay (t.year + 1) t.month t.day).2.2 := rfl
  have key : epochDays t < rawDays (t.year + 1) t.month t.day := by
    unfold epochDays rawDays
    have hty := daysToYear_succ t.year hy
    have h1 := monthOffset_le t.year t.month
    have h2 := yearLength_ge t.year
    have h3 : monthOffset t.year t.month ≤ 341 := by
      have := monthOffset_le t.year t.month
      omega
    omega
  have e3 : epochDays t < epochDays (stepYear t) := by
    rw [e, hr]
    exact key
  have e4 : (stepYear t).hour = t.hour := rfl
  have e5 : (stepYear t).minute = t.minute := rfl
  unfold epochMinutes
  rw [e4, e5]
  omega

theorem stepDay_advances (u : DateTime) (hu : Valid u) :
    Valid (stepDay u) ∧ epochMinutes u < epochMinutes (stepDay u) := by
  refine ⟨valid_stepDay u hu, ?_⟩
  have := epochMinutes_stepDay u hu
  omega

theorem stepMonth_advances (u : DateTime) (hu : Valid u) :
    Valid (stepMonth u) ∧ epochMinutes u < epochMinutes (stepMonth u) := by
  refine ⟨valid_stepMonth u hu, ?_⟩
  have h1 := epochMinutes_stepMonth u hu
  have h2 := daysInMonth_pos u.year u.month
  omega

theorem stepYear_advances (u : DateTime) (hu : Valid u) :
    Valid (stepYear u) ∧ epochMinutes u < epochMinutes (stepYear u) :=
  ⟨valid_stepYear u hu, epochMinutes_stepYear u hu⟩

/-- RecurrenceFrequency from utils/notifications.ts. -/
inductive Frequency where
  | day
  | week
  | month
  | year
deriving DecidableEq, Repr

/-- RecurrenceOptions from utils/notifications.ts.  `daysOfWeek` uses source
    weekday numbering 0 (Sunday) .. 6 (Saturday); `untilDate` is the source's
    optional `until` end-date field. -/
structure Recurrence where
  frequency : Frequency
  interval : Nat
  daysOfWeek : Option (List Nat) := none
  untilDate : Option DateTime := none
deriving DecidableEq, Repr

/-- The Reminder record from utils/notifications.ts, timing facet plus the
    legacy fields the interface still carries. -/
structure Reminder where
  id : String
  title : String
  body : Option String := none
  startDate : DateTime
  startTime : DateTime
  isAllDay : Bool
  isRecurring : Bool
  recurrence : Option Recurrence := none
  hour : Nat := 0
  minute : Nat := 0
  isDaily : Bool := false
  expiresAt : Option DateTime := none
deriving DecidableEq, Repr

/-- A platform fire specification, one constructor per trigger type the source
    passes to the platform schedule call. -/
inductive Trigger where
  | absolute (date : DateTime)
  | daily (hour minute : Nat)
  | weekly (wd hour minute : Nat)
  | monthly (day hour minute : Nat)
  | yearly (month day hour minute : Nat)
deriving DecidableEq, Repr

/-- The content payload handed to every platform schedule call:
    `reminder.title || 'Reminder'` and `reminder.body || ''`. -/
structure Payload where
  title : String
  body : String
deriving DecidableEq, Repr

def payloadOf (r : Reminder) : Payload :=
  ⟨if r.title = "" then "Reminder" else r.title, r.body.getD ""⟩

/-- The anchor instant computed by scheduleReminder
    (utils/notifications.ts lines 91-96): the start date combined with the
    09:00 fallback when all-day, with startTime's hour/minute otherwise. -/
def schedAnchor (r : Reminder) : DateTime :=
  if r.isAllDay then setHoursMin r.startDate 9 0
  else setHoursMin r.startDate r.startTime.hour r.startTime.minute

/-- The anchor instant computed by calculateNextOccurrence
    (App.tsx lines 210-211): always startTime's hour/minute — the source has
    no all-day check on this path. -/
def calcAnchor (r : Reminder) : DateTime :=
  setHoursMin r.startDate r.startTime.hour r.startTime.minute

/-- The weekly active-weekday resolution used by both the materializer and the
    calculator: `daysOfWeek && daysOfWeek.length > 0 ? daysOfWeek :
    [anchor.getDay()]`. -/
def activeWeekdays (daysOfWeek : Option (List Nat)) (anchor : DateTime) : List Nat :=
  match daysOfWeek with
  | some ds => if 0 < ds.length then ds else [weekday anchor]
  | none => [weekday anchor]

/-- scheduleReminder from utils/notifications.ts, modelled as the ordered list
    of (identifier, payload, fireSpec) requests issued to the platform service
    together with the returned id (`now` stands for the `new Date()` the
    non-recurring branch reads; the catch branch is unreachable in this pure
    model, so the result is always `some`). -/
def scheduleReminder (now : DateTime) (r : Reminder) :
    List (String × Payload × Trigger) × Option String :=
  let scheduledTime := schedAnchor r
  if r.isRecurring = false then
    let fireAt :=
      if epochMinutes scheduledTime ≤ epochMinutes now ∧ sameCalDate scheduledTime now then
        jsSetDate scheduledTime (scheduledTime.day + 1)
      else scheduledTime
    ([(r.id, payloadOf r, Trigger.absolute fireAt)], some r.id)
  else
    let rec0 := r.recurrence.getD ⟨Frequency.day, 1, none, none⟩
    match rec0.frequency with
    | Frequency.day =>
        ([(r.id, payloadOf r, Trigger.daily scheduledTime.hour scheduledTime.minute)],
         some r.id)
    | Frequency.week =>
        let days := activeWeekdays rec0.daysOfWeek scheduledTime
        (days.map (fun d =>
          (r.id ++ "_" ++ toString d, payloadOf r,
           Trigger.weekly (d + 1) scheduledTime.hour scheduledTime.minute)),
         some r.id)
    | Frequency.month =>
        ([(r.id, payloadOf r,
           Trigger.monthly scheduledTime.day scheduledTime.hour scheduledTime.minute)],
         some r.id)
    | Frequency.year =>
        ([(r.id, payloadOf r,
           Trigger.yearly (scheduledTime.month + 1) scheduledTime.day
             scheduledTime.hour scheduledTime.minute)],
         some r.id)

/-- cancelReminder from utils/notifications.ts, modelled as the ordered list of
    identifiers passed to the platform cancel call: the bare id first, then the
    seven weekday-suffixed variants. -/
def cancelReminder (rid : String) : List String :=
  rid :: (List.range 7).map (fun i => rid ++ "_" ++ toString i)

/-- The persistent key-value store (AsyncStorage) as a partial map. -/
def Store := String → Option String

def initializedKey : String := "notifications_initialized"

def initializedDateKey : String := "notifications_initialized_date"

/-- shouldInitializeNotifications from utils/notifications.ts; `today` stands
    for `new Date().toDateString()`.  Reads are modelled as total, so the
    catch branch (which also returns true) is unreachable here. -/
def shouldInitNotifs (store : Store) (today : String) : Bool :=
  let initialized := store initializedKey
  let initializedDate := store initializedDateKey
  if initialized = none ∨ initialized ≠ some "true" then true
  else if initializedDate ≠ some today then true
  else false

/-- markNotificationsInitialized from utils/notifications.ts: persists
    flag = 'true' and date = today. -/
def markNotifsInited (store : Store) (today : String) : Store :=
  fun k =>
    if k = initializedKey then some "true"
    else if k = initializedDateKey then some today
    else store k

/-- The common shape of the day/month/year while-loops in
    calculateNextOccurrence: `while (next <= now) next = step(next)`.
    `hstep` is the invariant that makes the source loop terminate: each step
    keeps the date normalized and strictly increases the instant. -/
def advanceBy (step : DateTime → DateTime)
    (hstep : ∀ u, Valid u → Valid (step u) ∧ epochMinutes u < epochMinutes (step u))
    (now t : DateTime) (ht : Valid t) : DateTime :=
  if h : epochMinutes t ≤ epochMinutes now then
    advanceBy step hstep now (step t) (hstep t ht).1
  else t
termination_by epochMinutes now + 1 - epochMinutes t
decreasing_by
  have h2 := (hstep t ht).2
  omega

/-- The weekly while-loop of calculateNextOccurrence (App.tsx lines 226-231):
    return the candidate once it is strictly after `now` with its weekday in
    the active set; otherwise advance one day, breaking (and returning the
    overshot candidate) once it passes `now` plus 365 days. -/
def advanceWeek (now : DateTime) (activeDays : List Nat) (t : DateTime) (ht : Valid t) :
    DateTime :=
  if epochMinutes now < epochMinutes t ∧ weekday t ∈ activeDays then t
  else
    if h : epochMinutes now + 365 * 1440 < epochMinutes (stepDay t) then stepDay t
    else advanceWeek now activeDays (stepDay t) (stepDay_advances t ht).1
termination_by epochMinutes now + 365 * 1440 + 1 - epochMinutes t
decreasing_by
  have h2 := epochMinutes_stepDay t ht
  omega

/-- calculateNextOccurrence from App.tsx lines 208-247.  `now` stands for the
    `new Date()` read at entry; the validity hypothesis on the stored start
    date is the invariant that makes the source's unbounded while-loops
    terminate. -/
def calculateNextOccurrence (now : DateTime) (r : Reminder) (hv : Valid r.startDate) :
    DateTime :=
  let scheduled := calcAnchor r
  if epochMinutes now < epochMinutes scheduled then scheduled
  else
    if r.isRecurring = true then
      match r.recurrence with
      | some rec0 =>
        match rec0.frequency with
        | Frequency.day => advanceBy stepDay stepDay_advances now scheduled hv
        | Frequency.week =>
            advanceWeek now (activeWeekdays rec0.daysOfWeek scheduled) scheduled hv
        | Frequency.month => advanceBy stepMonth stepMonth_advances now scheduled hv
        | Frequency.year => advanceBy stepYear stepYear_advances now scheduled hv
      | none => scheduled
    else scheduled

/-- The day/month/year loop returns the first iterate of the step function that
    is strictly after `now`. -/
theorem advanceBy_spec (step : DateTime → DateTime)
    (hstep : ∀ u, Valid u → Valid (step u) ∧ epochMinutes u < epochMinutes (step u))
    (now t : DateTime) (ht : Valid t) :
    ∃ k, advanceBy step hstep now t ht = step^[k] t ∧
      epochMinutes now < epochMinutes (step^[k] t) ∧
      ∀ j < k, epochMinutes (step^[j] t) ≤ epochMinutes now := by
  by_cases h : epochMinutes t ≤ epochMinutes now
  · obtain ⟨k, hk1, hk2, hk3⟩ := advanceBy_spec step hstep now (step t) (hstep t ht).1
    refine ⟨k + 1, ?_, ?_, ?_⟩
    · rw [advanceBy, dif_pos h, Function.iterate_succ_apply]
      exact hk1
    · rw [Function.iterate_succ_apply]
      exact hk2
    · intro j hj
      match j with
      | 0 => simpa using h
      | j' + 1 =>
        rw [Function.iterate_succ_apply]
        exact hk3 j' (by omega)
  · refine ⟨0, ?_, ?_, ?_⟩
    · rw [advanceBy, dif_neg h]
      exact (Function.iterate_zero_apply step t).symm
    · simpa using Nat.lt_of_not_le h
    · intro j hj
      exact absurd hj (Nat.not_lt_zero j)
termination_by epochMinutes now + 1 - epochMinutes t
decreasing_by
  have h2 := (hstep t ht).2
  omega

/-- A weekly candidate is accepted when it is strictly after `now` and its
    weekday belongs to the active set. -/
def weekAccepts (now : DateTime) (activeDays : List Nat) (c : DateTime) : Prop :=
  epochMinutes now < epochMinutes c ∧ weekday c ∈ activeDays

instance (now : DateTime) (activeDays : List Nat) (c : DateTime) :
    Decidable (weekAccepts now activeDays c) :=
  inferInstanceAs (Decidable (_ ∧ _))

/-- The weekly loop returns some day-iterate of the anchor: either the first
    accepted candidate, or — when no candidate up to the cutoff is accepted —
    the first candidate past the one-year cutoff (the source's safety break),
    so the bounded scan terminates on every input. -/
theorem advanceWeek_spec (now : DateTime) (activeDays : List Nat) (t : DateTime)
    (ht : Valid t) :
    ∃ k, advanceWeek now activeDays t ht = stepDay^[k] t ∧
      (∀ j < k, ¬ weekAccepts now activeDays (stepDay^[j] t)) ∧
      (weekAccepts now activeDays (stepDay^[k] t) ∨
        epochMinutes now + 365 * 1440 < epochMinutes (stepDay^[k] t)) := by
  by_cases hacc : epochMinutes now < epochMinutes t ∧ weekday t ∈ activeDays
  · refine ⟨0, ?_, ?_, ?_⟩
    · rw [advanceWeek, if_pos hacc]
      exact (Function.iterate_zero_apply stepDay t).symm
    · intro j hj
      exact absurd hj (Nat.not_lt_zero j)
    · exact Or.inl hacc
  · by_cases hbrk : epochMinutes now + 365 * 1440 < epochMinutes (stepDay t)
    · refine ⟨1, ?_, ?_, ?_⟩
      · rw [advanceWeek, if_neg hacc, dif_pos hbrk]
        rfl
      · intro j hj
        have hj0 : j = 0 := by omega
        subst hj0
        simpa [weekAccepts] using hacc
      · exact Or.inr (by simpa using hbrk)
    · obtain ⟨k, hk1, hk2, hk3⟩ :=
        advanceWeek_spec now activeDays (stepDay t) (stepDay_advances t ht).1
      refine ⟨k + 1, ?_, ?_, ?_⟩
      · rw [advanceWeek, if_neg hacc, dif_neg hbrk, Function.iterate_succ_apply]
        exact hk1
      · intro j hj
        match j with
        | 0 => simpa [weekAccepts] using hacc
        | j' + 1 =>
          rw [Function.iterate_succ_apply]
          exact hk2 j' (by omega)
      · rw [Function.iterate_succ_apply]
        exact hk3
termination_by epochMinutes now + 365 * 1440 + 1 - epochMinutes t
decreasing_by
  have h2 := epochMinutes_stepDay t ht
  omega

/-- The platform weekday field of a Weekly fireSpec (0 for the other kinds). -/
def triggerWeekday : Trigger → Nat
  | Trigger.weekly wd _ _ => wd
  | _ => 0

/-- A concrete reference instant shared by the concrete examples below:
    Saturday 2025-10-11 at 09:00. -/
def wNow : DateTime := ⟨2025, 9, 11, 9, 0⟩

/-- A concrete all-day rule whose startTime reads 08:30. -/
def allDayRule : Reminder :=
  { id := "r1", title := "t", startDate := ⟨2025, 9, 11, 0, 0⟩,
    startTime := ⟨2025, 9, 11, 8, 30⟩, isAllDay := true, isRecurring := false }

/-- A concrete timed (not all-day) one-shot rule anchored at 08:30. -/
def timedRule : Reminder :=
  { id := "r2", title := "t", startDate := ⟨2025, 9, 11, 0, 0⟩,
    startTime := ⟨2025, 9, 11, 8, 30⟩, isAllDay := false, isRecurring := false }

/-- C1, counterexample: for an all-day rule with startTime reading 08:30, the
    next-occurrence calculator anchors at 08:30 while materialization anchors
    at the 09:00 fallback — the two anchor instants differ, so the calculator
    and the materializer do not agree on all-day rules. -/
theorem calcAnchor_ne_schedAnchor_allDay :
    calcAnchor allDayRule ≠ schedAnchor allDayRule ∧
    (calcAnchor allDayRule).hour = 8 ∧ (calcAnchor allDayRule).minute = 30 ∧
    (schedAnchor allDayRule).hour = 9 ∧ (schedAnchor allDayRule).minute = 0 := by
  decide

/-- C1 (amended): the calculator and the materializer compute the same anchor
    instant whenever `isAllDay` is false; when `isAllDay` is true the
    materializer anchors at the 09:00 fallback while the calculator keeps
    using startTime's hour and minute, so the two agree on all-day rules only
    when startTime itself reads 09:00. -/
theorem anchor_agreement (r : Reminder) :
    (r.isAllDay = false → calcAnchor r = schedAnchor r) ∧
    (r.isAllDay = true →
      schedAnchor r = setHoursMin r.startDate 9 0 ∧
      calcAnchor r = setHoursMin r.startDate r.startTime.hour r.startTime.minute) := by
  constructor
  · intro h
    simp [calcAnchor, schedAnchor, h]
  · intro h
    simp [calcAnchor, schedAnchor, h]

theorem anchor_agreement_w : calcAnchor timedRule = schedAnchor timedRule :=
  (anchor_agreement timedRule).1 rfl

/-- C2: for a recurring weekly rule, materialization emits one Weekly trigger
    per listed weekday `d`, in list order, with identifier `id ++ "_" ++ d` and
    platform weekday field `d + 1` — exactly `n` triggers for `n` listed
    weekdays; when daysOfWeek is absent or empty it emits exactly one Weekly
    trigger keyed on the anchor's own weekday. -/
theorem weekly_materialization (now : DateTime) (r : Reminder) (rc : Recurrence)
    (hrecur : r.isRecurring = true) (hrec : r.recurrence = some rc)
    (hfreq : rc.frequency = Frequency.week) :
    (∀ ds, rc.daysOfWeek = some ds → ds ≠ [] → ds.Nodup →
      (scheduleReminder now r).1 =
        ds.map (fun d =>
          (r.id ++ "_" ++ toString d, payloadOf r,
           Trigger.weekly (d + 1) (schedAnchor r).hour (schedAnchor r).minute)) ∧
      (scheduleReminder now r).1.length = ds.length) ∧
    ((rc.daysOfWeek = none ∨ rc.daysOfWeek = some []) →
      (scheduleReminder now r).1 =
        [(r.id ++ "_" ++ toString (weekday (schedAnchor r)), payloadOf r,
          Trigger.weekly (weekday (schedAnchor r) + 1)
            (schedAnchor r).hour (schedAnchor r).minute)]) := by
  constructor
  · intro ds hds hne _
    have hlen : 0 < ds.length := List.length_pos.mpr hne
    simp [scheduleReminder, hrecur, hrec, hfreq, activeWeekdays, hds, hlen]
  · rintro (hnone | hnil)
    · simp [scheduleReminder, hrecur, hrec, hfreq, activeWeekdays, hnone]
    · simp [scheduleReminder, hrecur, hrec, hfreq, activeWeekdays, hnil]

/-- A concrete weekly rule with ascending daysOfWeek = [1, 3, 5]. -/
def sortedWeeklyRule : Reminder :=
  { id := "r3", title := "t", startDate := ⟨2025, 9, 11, 0, 0⟩,
    startTime := ⟨2025, 9, 11, 8, 0⟩, isAllDay := false, isRecurring := true,
    recurrence := some ⟨Frequency.week, 1, some [1, 3, 5], none⟩ }

theorem weekly_materialization_w :
    (scheduleReminder wNow sortedWeeklyRule).1 =
      [1, 3, 5].map (fun d =>
        (sortedWeeklyRule.id ++ "_" ++ toString d, payloadOf sortedWeeklyRule,
         Trigger.weekly (d + 1) (schedAnchor sortedWeeklyRule).hour
           (schedAnchor sortedWeeklyRule).minute)) ∧
    (scheduleReminder wNow sortedWeeklyRule).1.length = 3 := by
  have h := (weekly_materialization wNow sortedWeeklyRule
    ⟨Frequency.week, 1, some [1, 3, 5], none⟩ rfl rfl rfl).1 [1, 3, 5] rfl
    (by decide) (by decide)
  exact ⟨h.1, by rw [h.2]; rfl⟩

/-- C3: for a non-recurring rule, materialization emits exactly one Absolute
    trigger keyed by the bare id; its fire instant is the anchor rolled
    forward by exactly one day (1440 minutes) when the anchor is at or before
    now and on today's calendar date, and the unmodified anchor otherwise —
    in particular a past anchor on an earlier calendar date is left as-is. -/
theorem one_shot_materialization (now : DateTime) (r : Reminder)
    (hrecur : r.isRecurring = false) (hv : Valid r.startDate) :
    ∃ t, scheduleReminder now r =
        ([(r.id, payloadOf r, Trigger.absolute t)], some r.id) ∧
      ((epochMinutes (schedAnchor r) ≤ epochMinutes now ∧
          sameCalDate (schedAnchor r) now = true) →
        t = stepDay (schedAnchor r) ∧
        epochMinutes t = epochMinutes (schedAnchor r) + 1440) ∧
      (¬ (epochMinutes (schedAnchor r) ≤ epochMinutes now ∧
          sameCalDate (schedAnchor r) now = true) →
        t = schedAnchor r) := by
  have hva : Valid (schedAnchor r) := by
    unfold schedAnchor
    split <;> exact hv
  by_cases hc : epochMinutes (schedAnchor r) ≤ epochMinutes now ∧
      sameCalDate (schedAnchor r) now = true
  · refine ⟨stepDay (schedAnchor r), ?_, ?_, ?_⟩
    · simp [scheduleReminder, hrecur, hc, stepDay]
    · intro _
      exact ⟨rfl, epochMinutes_stepDay _ hva⟩
    · intro h
      exact absurd hc h
  · refine ⟨schedAnchor r, ?_, ?_, ?_⟩
    · simp [scheduleReminder, hrecur, hc]
    · intro h
      exact absurd h hc
    · intro _
      rfl

theorem one_shot_materialization_w :
    ∃ t, scheduleReminder wNow timedRule =
        ([(timedRule.id, payloadOf timedRule, Trigger.absolute t)], some timedRule.id) ∧
      ((epochMinutes (schedAnchor timedRule) ≤ epochMinutes wNow ∧
          sameCalDate (schedAnchor timedRule) wNow = true) →
        t = stepDay (schedAnchor timedRule) ∧
        epochMinutes t = epochMinutes (schedAnchor timedRule) + 1440) ∧
      (¬ (epochMinutes (schedAnchor timedRule) ≤ epochMinutes wNow ∧
          sameCalDate (schedAnchor timedRule) wNow = true) →
        t = schedAnchor timedRule) :=
  one_shot_materialization wNow timedRule rfl (by decide)

/-- C4: cancellation always issues exactly the 8 identifiers — the bare id
    followed by the seven weekday-suffixed variants id_0 .. id_6 — regardless
    of the rule's frequency or of which variant set was actually scheduled. -/
theorem cancel_eight_variants (rid : String) :
    cancelReminder rid =
      [rid, rid ++ "_" ++ "0", rid ++ "_" ++ "1", rid ++ "_" ++ "2", rid ++ "_" ++ "3",
       rid ++ "_" ++ "4", rid ++ "_" ++ "5", rid ++ "_" ++ "6"] ∧
    (cancelReminder rid).length = 8 := by
  constructor
  · rfl
  · rfl

/-- The advancement step selected by a recurrence frequency in
    calculateNextOccurrence (the weekly path also advances day by day). -/
def stepOf : Frequency → DateTime → DateTime
  | Frequency.day => stepDay
  | Frequency.week => stepDay
  | Frequency.month => stepMonth
  | Frequency.year => stepYear

/-- C5: for a recurring day/month/year rule whose anchor is at or before now,
    the calculator returns the first element of the sequence anchor,
    anchor + 1 unit, anchor + 2 units, … (with the JS calendar rollover
    arithmetic of the respective step) that is strictly after now. -/
theorem fixed_step_next_occurrence (now : DateTime) (r : Reminder) (rc : Recurrence)
    (hv : Valid r.startDate) (hrecur : r.isRecurring = true)
    (hrec : r.recurrence = some rc)
    (hfreq : rc.frequency = Frequency.day ∨ rc.frequency = Frequency.month ∨
      rc.frequency = Frequency.year)
    (hpast : epochMinutes (calcAnchor r) ≤ epochMinutes now) :
    ∃ k, calculateNextOccurrence now r hv = (stepOf rc.frequency)^[k] (calcAnchor r) ∧
      epochMinutes now < epochMinutes ((stepOf rc.frequency)^[k] (calcAnchor r)) ∧
      ∀ j < k,
        epochMinutes ((stepOf rc.frequency)^[j] (calcAnchor r)) ≤ epochMinutes now := by
  have hnlt : ¬ epochMinutes now < epochMinutes (calcAnchor r) := by omega
  rcases hfreq with hf | hf | hf
  · simp only [calculateNextOccurrence, hnlt, if_false, hrecur, if_true, hrec, hf, stepOf]
    exact advanceBy_spec stepDay stepDay_advances now (calcAnchor r) hv
  · simp only [calculateNextOccurrence, hnlt, if_false, hrecur, if_true, hrec, hf, stepOf]
    exact advanceBy_spec stepMonth stepMonth_advances now (calcAnchor r) hv
  · simp only [calculateNextOccurrence, hnlt, if_false, hrecur, if_true, hrec, hf, stepOf]
    exact advanceBy_spec stepYear stepYear_advances now (calcAnchor r) hv

/-- A concrete daily recurring rule anchored at 08:00 on 2025-10-11. -/
def dailyRule : Reminder :=
  { id := "r5", title := "t", startDate := ⟨2025, 9, 11, 0, 0⟩,
    startTime := ⟨2025, 9, 11, 8, 0⟩, isAllDay := false, isRecurring := true,
    recurrence := some ⟨Frequency.day, 1, none, none⟩ }

theorem dailyRule_valid : Valid dailyRule.startDate := by decide

theorem fixed_step_next_occurrence_w :
    ∃ k, calculateNextOccurrence wNow dailyRule dailyRule_valid =
        (stepOf Frequency.day)^[k] (calcAnchor dailyRule) ∧
      epochMinutes wNow < epochMinutes ((stepOf Frequency.day)^[k] (calcAnchor dailyRule)) ∧
      ∀ j < k,
        epochMinutes ((stepOf Frequency.day)^[j] (calcAnchor dailyRule)) ≤
          epochMinutes wNow :=
  fixed_step_next_occurrence wNow dailyRule ⟨Frequency.day, 1, none, none⟩
    dailyRule_valid rfl rfl (Or.inl rfl) (by decide)

/-- C6: for a recurring weekly rule whose anchor is at or before now, the
    calculator scans the anchor day by day and returns the first candidate
    strictly after now whose weekday lies in the active set (explicit
    daysOfWeek, else the anchor's weekday); when no candidate up to the
    one-year cutoff is accepted it returns the first candidate past the
    cutoff, so the bounded search terminates for every input, including
    misconfigured weekday sets. -/
theorem weekly_next_occurrence (now : DateTime) (r : Reminder) (rc : Recurrence)
    (hv : Valid r.startDate) (hrecur : r.isRecurring = true)
    (hrec : r.recurrence = some rc) (hfreq : rc.frequency = Frequency.week)
    (hpast : epochMinutes (calcAnchor r) ≤ epochMinutes now) :
    ∃ k, calculateNextOccurrence now r hv = stepDay^[k] (calcAnchor r) ∧
      (∀ j < k, ¬ weekAccepts now (activeWeekdays rc.daysOfWeek (calcAnchor r))
        (stepDay^[j] (calcAnchor r))) ∧
      (weekAccepts now (activeWeekdays rc.daysOfWeek (calcAnchor r))
          (stepDay^[k] (calcAnchor r)) ∨
        epochMinutes now + 365 * 1440 < epochMinutes (stepDay^[k] (calcAnchor r))) := by
  have hnlt : ¬ epochMinutes now < epochMinutes (calcAnchor r) := by omega
  simp only [calculateNextOccurrence, hnlt, if_false, hrecur, if_true, hrec, hfreq]
  exact advanceWeek_spec now (activeWeekdays rc.daysOfWeek (calcAnchor r))
    (calcAnchor r) hv

theorem sortedWeeklyRule_valid : Valid sortedWeeklyRule.startDate := by decide

theorem weekly_next_occurrence_w :
    ∃ k, calculateNextOccurrence wNow sortedWeeklyRule sortedWeeklyRule_valid =
        stepDay^[k] (calcAnchor sortedWeeklyRule) ∧
      (∀ j < k, ¬ weekAccepts wNow (activeWeekdays (some [1, 3, 5])
        (calcAnchor sortedWeeklyRule)) (stepDay^[j] (calcAnchor sortedWeeklyRule))) ∧
      (weekAccepts wNow (activeWeekdays (some [1, 3, 5]) (calcAnchor sortedWeeklyRule))
          (stepDay^[k] (calcAnchor sortedWeeklyRule)) ∨
        epochMinutes wNow + 365 * 1440 <
          epochMinutes (stepDay^[k] (calcAnchor sortedWeeklyRule))) :=
  weekly_next_occurrence wNow sortedWeeklyRule ⟨Frequency.week, 1, some [1, 3, 5], none⟩
    sortedWeeklyRule_valid rfl rfl rfl (by decide)

/-- C7: both materialization and the next-occurrence calculator are
    independent of recurrence.interval and recurrence.until — any two rules
    agreeing on every field the engine reads (id, title, body, startDate,
    startTime, isAllDay, isRecurring, recurrence.frequency,
    recurrence.daysOfWeek) but with arbitrary interval and until fields
    produce the same emitted requests and the same computed instant. -/
theorem interval_until_ignored (now : DateTime) (r1 r2 : Reminder)
    (rc1 rc2 : Recurrence)
    (hid : r1.id = r2.id) (htitle : r1.title = r2.title) (hbody : r1.body = r2.body)
    (hsd : r1.startDate = r2.startDate) (hst : r1.startTime = r2.startTime)
    (had : r1.isAllDay = r2.isAllDay) (hir : r1.isRecurring = r2.isRecurring)
    (hr1 : r1.recurrence = some rc1) (hr2 : r2.recurrence = some rc2)
    (hfreq : rc1.frequency = rc2.frequency) (hdays : rc1.daysOfWeek = rc2.daysOfWeek)
    (hv1 : Valid r1.startDate) (hv2 : Valid r2.startDate) :
    scheduleReminder now r1 = scheduleReminder now r2 ∧
    calculateNextOccurrence now r1 hv1 = calculateNextOccurrence now r2 hv2 := by
  have hanch : schedAnchor r1 = schedAnchor r2 := by
    unfold schedAnchor setHoursMin
    rw [hsd, hst, had]
  have hcalc : calcAnchor r1 = calcAnchor r2 := by
    unfold calcAnchor setHoursMin
    rw [hsd, hst]
  have hpay : payloadOf r1 = payloadOf r2 := by
    unfold payloadOf
    rw [htitle, hbody]
  constructor
  · unfold scheduleReminder
    simp only [hanch, hid, hir, hpay, hr1, hr2, Option.getD_some, hfreq, hdays]
  · unfold calculateNextOccurrence
    simp only [hcalc, hir, hr1, hr2, hfreq, hdays]

/-- The daily rule with interval and until replaced by other values. -/
def dailyRuleVariant : Reminder :=
  { dailyRule with recurrence := some ⟨Frequency.day, 7, none, some wNow⟩ }

theorem interval_until_ignored_w :
    scheduleReminder wNow dailyRuleVariant = scheduleReminder wNow dailyRule ∧
    calculateNextOccurrence wNow dailyRuleVariant dailyRule_valid =
      calculateNextOccurrence wNow dailyRule dailyRule_valid :=
  interval_until_ignored wNow dailyRuleVariant dailyRule
    ⟨Frequency.day, 7, none, some wNow⟩ ⟨Frequency.day, 1, none, none⟩
    rfl rfl rfl rfl rfl rfl rfl rfl rfl rfl rfl dailyRule_valid dailyRule_valid

/-- C8: the initialization guard returns true exactly when the persisted flag
    is missing or differs from 'true', or the persisted date differs from
    today; hence it is true on first-ever call (empty store), false right
    after marking initialized on the same calendar date, and true again once
    the calendar date advances. -/
theorem init_guard (store : Store) (today tomorrow : String) (hne : tomorrow ≠ today) :
    (shouldInitNotifs store today = true ↔
      store initializedKey ≠ some "true" ∨ store initializedDateKey ≠ some today) ∧
    shouldInitNotifs (fun _ => none) today = true ∧
    shouldInitNotifs (markNotifsInited store today) today = false ∧
    shouldInitNotifs (markNotifsInited store today) tomorrow = true := by
  have hkey : initializedDateKey ≠ initializedKey := by decide
  have hne' : today ≠ tomorrow := fun h => hne h.symm
  refine ⟨?_, ?_, ?_, ?_⟩
  · by_cases hk : store initializedKey = some "true" <;>
      by_cases hd : store initializedDateKey = some today <;>
        simp [shouldInitNotifs, hk, hd]
  · simp [shouldInitNotifs]
  · simp [shouldInitNotifs, markNotifsInited, hkey]
  · simp [shouldInitNotifs, markNotifsInited, hkey, hne']

theorem init_guard_w :
    shouldInitNotifs (fun _ => none) "Sat Oct 11 2025" = true ∧
    shouldInitNotifs (markNotifsInited (fun _ => none) "Sat Oct 11 2025")
      "Sat Oct 11 2025" = false ∧
    shouldInitNotifs (markNotifsInited (fun _ => none) "Sat Oct 11 2025")
      "Sun Oct 12 2025" = true := by
  have h := init_guard (fun _ => none) "Sat Oct 11 2025" "Sun Oct 12 2025" (by decide)
  exact ⟨h.2.1, h.2.2.1, h.2.2.2⟩

/-- A concrete weekly rule whose stored daysOfWeek list is [3, 1] — the order
    the user toggled the weekdays in, which the UI appends without sorting. -/
def unsortedWeeklyRule : Reminder :=
  { id := "r9", title := "t", startDate := ⟨2025, 9, 11, 0, 0⟩,
    startTime := ⟨2025, 9, 11, 8, 0⟩, isAllDay := false, isRecurring := true,
    recurrence := some ⟨Frequency.week, 1, some [3, 1], none⟩ }

/-- C9, counterexample: with daysOfWeek stored as [3, 1] materialization issues
    the weekday-3 trigger first and the weekday-1 trigger second (platform
    weekday fields [4, 2]) — not weekday-ascending order. -/
theorem weekly_emission_not_ascending :
    (scheduleReminder wNow unsortedWeeklyRule).1.map
      (fun p => (p.1, triggerWeekday p.2.2)) = [("r9_3", 4), ("r9_1", 2)] ∧
    ¬ List.Sorted (· ≤ ·)
      ((scheduleReminder wNow unsortedWeeklyRule).1.map
        (fun p => triggerWeekday p.2.2)) := by
  constructor
  · decide
  · decide

/-- C9 (amended): a multi-weekday weekly rule issues its N schedule calls in
    the order the weekdays appear in the stored daysOfWeek list (deterministic
    list order); in particular the calls are weekday-ascending whenever the
    stored list itself is ascending, but not otherwise. -/
theorem weekly_emission_order (now : DateTime) (r : Reminder) (rc : Recurrence)
    (hrecur : r.isRecurring = true) (hrec : r.recurrence = some rc)
    (hfreq : rc.frequency = Frequency.week)
    (ds : List Nat) (hds : rc.daysOfWeek = some ds) (hne : ds ≠ []) :
    (scheduleReminder now r).1.map (fun p => triggerWeekday p.2.2) =
      ds.map (· + 1) ∧
    (List.Sorted (· ≤ ·) ds →
      List.Sorted (· ≤ ·)
        ((scheduleReminder now r).1.map (fun p => triggerWeekday p.2.2))) := by
  have hlen : 0 < ds.length := List.length_pos.mpr hne
  have hmap : (scheduleReminder now r).1.map (fun p => triggerWeekday p.2.2) =
      ds.map (· + 1) := by
    simp [scheduleReminder, hrecur, hrec, hfreq, activeWeekdays, hds, hlen,
      triggerWeekday, List.map_map, Function.comp]
  refine ⟨hmap, fun hs => ?_⟩
  rw [hmap]
  exact List.Pairwise.map (· + 1) (fun a b hab => by simpa using Nat.add_le_add_right hab 1) hs

theorem weekly_emission_order_w :
    (scheduleReminder wNow sortedWeeklyRule).1.map (fun p => triggerWeekday p.2.2) =
      [1, 3, 5].map (· + 1) ∧
    List.Sorted (· ≤ ·)
      ((scheduleReminder wNow sortedWeeklyRule).1.map (fun p => triggerWeekday p.2.2)) := by
  have h := weekly_emission_order wNow sortedWeeklyRule
    ⟨Frequency.week, 1, some [1, 3, 5], none⟩ rfl rfl rfl [1, 3, 5] rfl (by decide)
  exact ⟨h.1, h.2 (by decide)⟩

/-- A concrete rule with isRecurring set but no recurrence descriptor. -/
def bareRecurringRule : Reminder :=
  { id := "r10", title := "t", startDate := ⟨2025, 9, 11, 0, 0⟩,
    startTime := ⟨2025, 9, 11, 8, 0⟩, isAllDay := false, isRecurring := true }

/-- C10: a rule with isRecurring true but no recurrence descriptor is
    materialized with the default descriptor (frequency day, interval 1): one
    Daily trigger at the anchor's hour and minute, keyed by the bare id, and
    the rule's id is returned. -/
theorem default_recurrence (now : DateTime) (r : Reminder)
    (hrecur : r.isRecurring = true) (hrec : r.recurrence = none) :
    scheduleReminder now r =
      ([(r.id, payloadOf r,
         Trigger.daily (schedAnchor r).hour (schedAnchor r).minute)],
       some r.id) := by
  simp [scheduleReminder, hrecur, hrec]

theorem default_recurrence_w :
    scheduleReminder wNow bareRecurringRule =
      ([(bareRecurringRule.id, payloadOf bareRecurringRule,
         Trigger.daily (schedAnchor bareRecurringRule).hour
           (schedAnchor bareRecurringRule).minute)],
       some bareRecurringRule.id) :=
  default_recurrence wNow bareRecurringRule rfl rfl

end Reminders
